import Mathlib

/-!
Verification development for the goconst repeated-literal analyzer.

The definitions below are a shallow embedding of the analyzer's core:
the tree-visitor aggregation (`addString`, `addConst`, `addConstWithValue`,
`evaluateConstExpr`, `resolveExprToString` from visitor.go), the
post-pass filtering (`ProcessResults` from parser.go), the issue
projection of the library entry point (`Run` from api.go), the string
interning pool (`InternString` from parser.go) and the path dispatch of
`ParseTree` (parser.go).  Go maps are embedded as insertion-ordered
association lists; the regular-expression engine is treated as an
opaque predicate; concurrency is embedded as a sequential fold over the
per-file walk events, and the randomized iteration order of a Go map is
made explicit as an enumeration-order parameter where results depend on
it.
-/

/-- Roles a literal occurrence can play (the `Type` enum of parser.go). -/
inductive Typ where
  | assignment
  | binary
  | caseClause
  | returnStmt
  | call
deriving DecidableEq

/-- Literal token kinds relevant to the analyzer (go/token kinds). -/
inductive Tok where
  | str
  | int
  | float
  | char
deriving DecidableEq

/-- Source position: the (Filename, Line, Column) part of token.Position. -/
structure Position where
  filename : String
  line : Nat
  column : Nat
deriving DecidableEq

/-- ExtendedPos from parser.go: a position plus the package name. -/
structure ExtendedPos where
  position : Position
  packageName : String
deriving DecidableEq

/-- ConstType from parser.go: one constant declaration. -/
structure ConstType where
  position : Position
  name : String
  packageName : String
deriving DecidableEq

/-- Issue from api.go: one reported finding. -/
structure Issue where
  pos : Position
  occurrencesCount : Nat
  str : String
  matchingConst : String
deriving DecidableEq

/-- Binary operators distinguished by the constant-expression resolver. -/
inductive Op where
  | add
  | sub
deriving DecidableEq

/-- The fragment of go/ast expressions examined by the visitor. -/
inductive Expr where
  | basicLit (kind : Tok) (value : String)
  | ident (name : String)
  | binaryExpr (op : Op) (x y : Expr)
  | paren (x : Expr)
  | otherExpr
deriving DecidableEq

/-- One named constant inside a const declaration (a ValueSpec entry). -/
structure ConstSpec where
  name : String
  value : Expr
  pos : Position
deriving DecidableEq

/-- The walk events produced by visiting one file's AST: a const
declaration with its specs, or a supported-context literal with its
role, token kind, raw text and position. -/
inductive Node where
  | constDecl (specs : List ConstSpec)
  | lit (typ : Typ) (kind : Tok) (value : String) (pos : Position)
deriving DecidableEq

/-- A parsed file: name, package, and its walk events in source order. -/
structure GoFile where
  name : String
  pkg : String
  nodes : List Node
deriving DecidableEq

/-! ### Association lists standing in for Go maps -/

/-- Lookup in an insertion-ordered association list (Go map read). -/
def alookup {α : Type} : List (String × α) → String → Option α
  | [], _ => none
  | (k, v) :: rest, key => if k = key then some v else alookup rest key

/-- Update or insert in an association list (Go map write). -/
def aset {α : Type} : List (String × α) → String → α → List (String × α)
  | [], key, v => [(key, v)]
  | (k, w) :: rest, key, v =>
      if k = key then (k, v) :: rest else (k, w) :: aset rest key v

theorem alookup_aset_self {α : Type} (m : List (String × α)) (k : String) (v : α) :
    alookup (aset m k v) k = some v := by
  induction m with
  | nil => simp [aset, alookup]
  | cons e rest ih =>
      obtain ⟨k', w⟩ := e
      by_cases h : k' = k <;> simp [aset, alookup, h, ih]

theorem alookup_aset_ne {α : Type} (m : List (String × α)) (k k' : String) (v : α)
    (h : k ≠ k') : alookup (aset m k v) k' = alookup m k' := by
  induction m with
  | nil => simp [aset, alookup, h]
  | cons e rest ih =>
      obtain ⟨k₀, w⟩ := e
      by_cases h0 : k₀ = k
      · subst h0
        simp [aset, alookup, h]
      · simp [aset, alookup, h0, ih]

/-- Keys of an association list, in insertion order. -/
def akeys {α : Type} (m : List (String × α)) : List String := m.map (·.1)

theorem akeys_aset {α : Type} (m : List (String × α)) (k : String) (v : α) :
    akeys (aset m k v) = if (alookup m k).isSome then akeys m else akeys m ++ [k] := by
  induction m with
  | nil => simp [aset, akeys, alookup]
  | cons e rest ih =>
      obtain ⟨k₀, w⟩ := e
      by_cases h0 : k₀ = k
      · simp [aset, akeys, alookup, h0]
      · simp only [aset, if_neg h0, akeys, List.map_cons, alookup] at ih ⊢
        rw [ih]
        split <;> simp

/-! ### Go string primitives -/

/-- UTF-8 byte size of one character, as Go counts string length. -/
def charSize (c : Char) : Nat :=
  if c.val ≤ 0x7F then 1 else if c.val ≤ 0x7FF then 2 else if c.val ≤ 0xFFFF then 3 else 4

/-- Byte length of a string (Go's `len(s)`). -/
def goLen (s : String) : Nat := s.data.foldl (fun n c => n + charSize c) 0

/-- Value of a hexadecimal digit character, if any. -/
def hexVal (c : Char) : Option Nat :=
  if '0' ≤ c ∧ c ≤ '9' then some (c.toNat - 48)
  else if 'a' ≤ c ∧ c ≤ 'f' then some (c.toNat - 87)
  else if 'A' ≤ c ∧ c ≤ 'F' then some (c.toNat - 55)
  else none

/-- Octal digit test. -/
def isOctal (c : Char) : Bool := '0' ≤ c && c ≤ '7'

/-- Whether a code point is a valid non-surrogate Unicode scalar value. -/
def validScalar (n : Nat) : Bool := (n < 0xD800 || (0xE000 ≤ n && n < 0x110000))

/-- Escape decoding of the interior of a double-quoted Go string literal,
following strconv.UnquoteChar: an unescaped quote or newline is an
error, the simple escapes, \xHH, octal \OOO (≤ 255), \uHHHH and
\UHHHHHHHH (excluding surrogates and out-of-range points). -/
def decodeEscapes : List Char → Option (List Char)
  | [] => some []
  | c :: rest =>
    if c = '\\' then
      match rest with
      | [] => none
      | e :: r =>
        if e = 'a' then (decodeEscapes r).map (Char.ofNat 7 :: ·)
        else if e = 'b' then (decodeEscapes r).map (Char.ofNat 8 :: ·)
        else if e = 'f' then (decodeEscapes r).map (Char.ofNat 12 :: ·)
        else if e = 'n' then (decodeEscapes r).map ('\n' :: ·)
        else if e = 'r' then (decodeEscapes r).map ('\r' :: ·)
        else if e = 't' then (decodeEscapes r).map ('\t' :: ·)
        else if e = 'v' then (decodeEscapes r).map (Char.ofNat 11 :: ·)
        else if e = '\\' then (decodeEscapes r).map ('\\' :: ·)
        else if e = '"' then (decodeEscapes r).map ('"' :: ·)
        else if e = 'x' then
          match r with
          | h1 :: h2 :: r2 =>
            match hexVal h1, hexVal h2 with
            | some d1, some d2 => (decodeEscapes r2).map (Char.ofNat (d1 * 16 + d2) :: ·)
            | _, _ => none
          | _ => none
        else if e = 'u' then
          match r with
          | h1 :: h2 :: h3 :: h4 :: r2 =>
            match hexVal h1, hexVal h2, hexVal h3, hexVal h4 with
            | some d1, some d2, some d3, some d4 =>
              let n := ((d1 * 16 + d2) * 16 + d3) * 16 + d4
              if validScalar n then (decodeEscapes r2).map (Char.ofNat n :: ·) else none
            | _, _, _, _ => none
          | _ => none
        else if e = 'U' then
          match r with
          | h1 :: h2 :: h3 :: h4 :: h5 :: h6 :: h7 :: h8 :: r2 =>
            match hexVal h1, hexVal h2, hexVal h3, hexVal h4,
                  hexVal h5, hexVal h6, hexVal h7, hexVal h8 with
            | some d1, some d2, some d3, some d4, some d5, some d6, some d7, some d8 =>
              let n := ((((((d1 * 16 + d2) * 16 + d3) * 16 + d4) * 16 + d5) * 16
                + d6) * 16 + d7) * 16 + d8
              if validScalar n then (decodeEscapes r2).map (Char.ofNat n :: ·) else none
            | _, _, _, _, _, _, _, _ => none
          | _ => none
        else if isOctal e then
          match r with
          | o2 :: o3 :: r2 =>
            if isOctal o2 && isOctal o3 then
              let n := (e.toNat - 48) * 64 + (o2.toNat - 48) * 8 + (o3.toNat - 48)
              if n ≤ 255 then (decodeEscapes r2).map (Char.ofNat n :: ·) else none
            else none
          | _ => none
        else none
    else if c = '"' ∨ c = '\n' then none
    else (decodeEscapes rest).map (c :: ·)

/-- Model of strconv.Unquote for double-quoted and backtick-quoted
literals: matching end quote required; raw strings reject interior
backticks and drop carriage returns; double-quoted strings are
escape-decoded. -/
def goUnquote (s : String) : Option String :=
  match s.data with
  | [] => none
  | [_] => none
  | q :: rest =>
    let inner := rest.dropLast
    if rest.getLast? ≠ some q then none
    else if q = '`' then
      if inner.contains '`' then none else some ⟨inner.filter (· ≠ '\r')⟩
    else if q = '"' then
      (decodeEscapes inner).map (⟨·⟩)
    else none

/-- True when the raw token text begins with a double quote or backtick
(the HasPrefix tests of addString and addConst). -/
def startsWithQuote (s : String) : Bool :=
  match s.data with
  | [] => false
  | c :: _ => c = '"' || c = '`'

/-- The unquoting step of addString and addConst in visitor.go: if the
token begins with a quote, unquote it; on failure strip the first and
last character when the token has at least two characters. -/
def unquoteVisitor (str : String) : String :=
  if startsWithQuote str then
    match goUnquote str with
    | some u => u
    | none => if 2 ≤ str.data.length then ⟨(str.data.drop 1).dropLast⟩ else str
  else str

/-- Go's lower() on ASCII: fold upper-case letters to lower case. -/
def lowerC (c : Char) : Char :=
  if 'A' ≤ c ∧ c ≤ 'Z' then Char.ofNat (c.toNat + 32) else c

/-- Digit-placement check for underscores, ported from strconv's
underscoreOK: an underscore may appear only between digits, or between
a base prefix and a digit. -/
def underscoreLoop (hex : Bool) (saw : Char) : List Char → Bool
  | [] => saw ≠ '_'
  | c :: rest =>
    if ('0' ≤ c ∧ c ≤ '9') ∨ (hex ∧ 'a' ≤ lowerC c ∧ lowerC c ≤ 'f') then
      underscoreLoop hex '0' rest
    else if c = '_' then
      if saw ≠ '0' then false else underscoreLoop hex '_' rest
    else if saw = '_' then false
    else underscoreLoop hex '!' rest

/-- underscoreOK from strconv, applied to the unsigned body of the
numeral (sign already stripped by ParseInt). -/
def underscoreOK (cs : List Char) : Bool :=
  let cs1 := match cs with
    | c :: r => if c = '-' ∨ c = '+' then r else cs
    | [] => cs
  match cs1 with
  | '0' :: p :: r =>
    if lowerC p = 'b' ∨ lowerC p = 'o' ∨ lowerC p = 'x' then
      underscoreLoop (lowerC p = 'x') '0' r
    else underscoreLoop false '^' cs1
  | _ => underscoreLoop false '^' cs1

/-- Accumulate the digits of a numeral in the given base, skipping
underscores as strconv's conversion loop does (their placement is
checked separately). -/
def parseDigits (base : Nat) (cs : List Char) : Option Nat :=
  cs.foldl
    (fun acc c =>
      match acc with
      | none => none
      | some n =>
        if c = '_' then some n
        else
          match hexVal c with
          | some d => if d < base then some (n * base + d) else none
          | none => none)
    (some 0)

/-- Model of strconv.ParseInt(s, 0, 0): optional sign, automatic base
detection (0b/0o/0x prefixes, leading zero means octal), underscore
placement rules, and the 64-bit signed integer range. -/
def parseIntBase0 (s : String) : Option Int :=
  match s.data with
  | [] => none
  | cs =>
    let signed := match cs with
      | '+' :: r => (false, r)
      | '-' :: r => (true, r)
      | _ => (false, cs)
    let neg := signed.1
    let body := signed.2
    if body = [] then none
    else
      let based := match body with
        | '0' :: p :: d :: r =>
          if lowerC p = 'b' then (2, d :: r)
          else if lowerC p = 'o' then (8, d :: r)
          else if lowerC p = 'x' then (16, d :: r)
          else (8, p :: d :: r)
        | '0' :: r => (8, r)
        | _ => (10, body)
      match parseDigits based.1 based.2 with
      | none => none
      | some n =>
        if based.2.contains '_' ∧ ¬ underscoreOK body then none
        else if neg then
          if n ≤ 2 ^ 63 then some (-(n : Int)) else none
        else if n < 2 ^ 63 then some (n : Int) else none

/-- Byte-suffix test (Go's strings.HasSuffix). -/
def goHasSuffix (s suf : String) : Bool := suf.data.isSuffixOf s.data

/-! ### Interning pool (InternString, parser.go) -/

/-- Model of the process-wide StringInternPool: a sync.Map holding each
interned string under its own content as key. -/
def InternString (pool : List (String × String)) (s : String) :
    String × List (String × String) :=
  if s = "" then ("", pool)
  else
    match alookup pool s with
    | some interned => (interned, pool)
    | none => (s, aset pool s s)

/-- Well-formedness of the intern pool: every entry maps a key to
itself, which holds because Store is only ever called with the copied
string as both key and value. -/
def PoolWF (pool : List (String × String)) : Prop :=
  ∀ k v, alookup pool k = some v → v = k

/-! ### Parser configuration and aggregation state -/

/-- The configuration slice of the Parser structure (parser.go) plus
the two option fields used by visitor.go (findDuplicates,
evalConstExpressions).  The two regular-expression filters are embedded
as opaque match predicates (`none` models both an unset pattern and a
pattern whose compilation failed and whose filter is disabled). -/
structure Parser where
  ignoreStringsRegex : Option (String → Bool) := none
  ignorePathRegex : Option (String → Bool) := none
  ignoreTests : Bool := false
  matchConstant : Bool := false
  findDuplicates : Bool := false
  evalConstExpressions : Bool := false
  minLength : Int := 0
  minOccurrences : Int := 0
  numberMin : Int := 0
  numberMax : Int := 0
  parseNumbers : Bool := false
  excludeTypes : Typ → Bool := fun _ => false

/-- The mutable aggregation state of the Parser: the strings map, the
occurrence counter map and the constants map. -/
structure ParserState where
  strs : List (String × List ExtendedPos) := []
  stringCount : List (String × Nat) := []
  consts : List (String × List ConstType) := []
deriving DecidableEq

/-- The state of a freshly built Parser. -/
def emptyState : ParserState := {}

/-- supportedTokens as built by New: strings always, numbers optional. -/
def supportedTokens (p : Parser) : List Tok :=
  if p.parseNumbers then [.str, .int, .float] else [.str]

/-- isSupported from visitor.go. -/
def isSupported (p : Parser) (t : Tok) : Bool := (supportedTokens p).contains t

/-- Application of an optional compiled regular expression. -/
def regexMatches (r : Option (String → Bool)) (s : String) : Bool :=
  match r with
  | none => false
  | some f => f s

/-- The numeric range test shared by addString and ProcessResults: drop
when the canonical value parses as an integer that violates a non-zero
configured bound. -/
def numberFilterDrop (p : Parser) (s : String) : Bool :=
  match parseIntBase0 s with
  | some i =>
      decide ((p.numberMin ≠ 0 ∧ i < p.numberMin) ∨ (p.numberMax ≠ 0 ∧ i > p.numberMax))
  | none => false

/-- addString from visitor.go: role exclusion, unquoting, length check,
ignore-regex, numeric range, then count increment, and position append
only on the first occurrence or on crossing the minimum-occurrence
threshold. -/
def addString (p : Parser) (st : ParserState) (pkg : String) (str : String)
    (pos : Position) (typ : Typ) : ParserState :=
  if p.excludeTypes typ then st
  else
    let unquotedStr := unquoteVisitor str
    if goLen unquotedStr = 0 ∨ (goLen unquotedStr : Int) < p.minLength then st
    else if regexMatches p.ignoreStringsRegex unquotedStr then st
    else if (p.numberMin ≠ 0 ∨ p.numberMax ≠ 0) ∧ numberFilterDrop p unquotedStr then st
    else
      let count := (alookup st.stringCount unquotedStr).getD 0 + 1
      let st1 := { st with stringCount := aset st.stringCount unquotedStr count }
      if count = 1 ∨ (count : Int) = p.minOccurrences then
        { st1 with
          strs := aset st.strs unquotedStr
            ((alookup st.strs unquotedStr).getD [] ++ [⟨pos, pkg⟩]) }
      else st1

/-- addConst from visitor.go: unquote, length and ignore-regex checks,
then append the declaration, but only when the value is new or
duplicate-constant search is enabled. -/
def addConst (p : Parser) (st : ParserState) (pkg : String) (name val : String)
    (pos : Position) : ParserState :=
  let unquotedVal := unquoteVisitor val
  if (goLen unquotedVal : Int) < p.minLength then st
  else if regexMatches p.ignoreStringsRegex unquotedVal then st
  else if (alookup st.consts unquotedVal).isNone ∨ p.findDuplicates then
    { st with
      consts := aset st.consts unquotedVal
        ((alookup st.consts unquotedVal).getD [] ++ [⟨pos, name, pkg⟩]) }
  else st

/-- addConstWithValue from visitor.go: like addConst but the value is
already resolved, so no unquoting. -/
def addConstWithValue (p : Parser) (st : ParserState) (pkg : String)
    (name val : String) (pos : Position) : ParserState :=
  if (goLen val : Int) < p.minLength then st
  else if regexMatches p.ignoreStringsRegex val then st
  else if (alookup st.consts val).isNone ∨ p.findDuplicates then
    { st with
      consts := aset st.consts val
        ((alookup st.consts val).getD [] ++ [⟨pos, name, pkg⟩]) }
  else st

/-- resolveExprToString from visitor.go: string literals unquote (with
the manual stripping fallback), identifiers look up a previously seen
constant of the same package (first match in map order), `+` recurses
on both sides, parentheses are transparent; everything else resolves to
the empty string. -/
def resolveExprToString (consts : List (String × List ConstType)) (pkg : String) :
    Expr → String
  | .basicLit kind value =>
      if kind = .str then
        match goUnquote value with
        | some v => v
        | none => if 2 ≤ value.data.length then ⟨(value.data.drop 1).dropLast⟩ else ""
      else ""
  | .ident name =>
      match consts.find? (fun e => e.2.any (fun c => c.name == name && c.packageName == pkg)) with
      | some e => e.1
      | none => ""
  | .binaryExpr op x y =>
      if op = .add then
        let l := resolveExprToString consts pkg x
        let r := resolveExprToString consts pkg y
        if l ≠ "" ∧ r ≠ "" then l ++ r else ""
      else ""
  | .paren x => resolveExprToString consts pkg x
  | .otherExpr => ""

/-- evaluateConstExpr from visitor.go: an ADD binary expression
concatenates its resolved sides when both are non-empty; anything else
falls back to resolveExprToString. -/
def evaluateConstExpr (consts : List (String × List ConstType)) (pkg : String)
    (e : Expr) : String :=
  match e with
  | .binaryExpr .add x y =>
      let l := resolveExprToString consts pkg x
      let r := resolveExprToString consts pkg y
      if l ≠ "" ∧ r ≠ "" then l ++ r else ""
  | e' => resolveExprToString consts pkg e'

/-- The constant-expression arm of the GenDecl case of Visit: when
constant-expression evaluation is enabled and the expression evaluates
to a non-empty string, record the constant under the resolved value. -/
def visitConstSpecExprArm (p : Parser) (st : ParserState) (pkg : String)
    (spec : ConstSpec) : ParserState :=
  if p.evalConstExpressions then
    let sv := evaluateConstExpr st.consts pkg spec.value
    if sv ≠ "" then addConstWithValue p st pkg spec.name sv spec.pos else st
  else st

/-- One ValueSpec entry of a const GenDecl in Visit: a supported basic
literal is recorded directly, anything else goes to the
constant-expression arm. -/
def visitConstSpec (p : Parser) (st : ParserState) (pkg : String)
    (spec : ConstSpec) : ParserState :=
  match spec.value with
  | .basicLit kind value =>
      if isSupported p kind then addConst p st pkg spec.name value spec.pos
      else visitConstSpecExprArm p st pkg spec
  | _ => visitConstSpecExprArm p st pkg spec

/-- Visit from visitor.go on one walk event: const declarations are
examined only when constant matching or duplicate finding is enabled;
a literal in one of the five roles is added when its token kind is
supported. -/
def visitNode (p : Parser) (pkg : String) (st : ParserState) : Node → ParserState
  | .constDecl specs =>
      if ¬ p.matchConstant ∧ ¬ p.findDuplicates then st
      else specs.foldl (fun s sp => visitConstSpec p s pkg sp) st
  | .lit typ kind value pos =>
      if isSupported p kind then addString p st pkg value pos typ else st

/-- Walking one parsed file: fold Visit over its events in source order. -/
def walkFile (p : Parser) (st : ParserState) (f : GoFile) : ParserState :=
  f.nodes.foldl (fun s n => visitNode p f.pkg s n) st

/-- Walking a list of files in processing order. -/
def walkFiles (p : Parser) (st : ParserState) (files : List GoFile) : ParserState :=
  files.foldl (walkFile p) st

/-- The per-value drop test of ProcessResults in parser.go: below the
minimum occurrence count, or matched by the ignore pattern, or an
integer out of the configured range. -/
def dropKey (p : Parser) (st : ParserState) (s : String) : Bool :=
  let count := (alookup st.stringCount s).getD 0
  if (count : Int) < p.minOccurrences then true
  else if regexMatches p.ignoreStringsRegex s then true
  else numberFilterDrop p s

/-- ProcessResults from parser.go: delete every string failing the drop
test from both the strings map and the counter map. -/
def ProcessResults (p : Parser) (st : ParserState) : ParserState :=
  { st with
    strs := st.strs.filter (fun e => ! dropKey p st e.1),
    stringCount := st.stringCount.filter
      (fun e => ! ((alookup st.strs e.1).isSome && dropKey p st e.1)) }

/-- The first pass of the issue loop in Run (api.go): keep, in map
enumeration order, the keys whose count reaches the threshold. -/
def stringKeysOf (p : Parser) (st : ParserState) (order : List String) : List String :=
  order.filter (fun s => decide (p.minOccurrences ≤ ((alookup st.stringCount s).getD 0 : Int)))

/-- The issue built for one surviving value in Run (api.go): position of
the first stored occurrence, the counted total, and the name of the
first recorded constant declaration sharing the value; a value with an
empty position list yields no issue. -/
def issueOf (st : ParserState) (s : String) : Option Issue :=
  match (alookup st.strs s).getD [] with
  | [] => none
  | fi :: _ =>
      some
        { pos := fi.position
          occurrencesCount := (alookup st.stringCount s).getD 0
          str := s
          matchingConst :=
            if st.consts ≠ [] then
              match alookup st.consts s with
              | some (c :: _) => c.name
              | _ => ""
            else "" }

/-- The issue list Run emits from a processed state, given the order in
which Go's randomized map iteration enumerates the strings map. -/
def issuesFromState (p : Parser) (st : ParserState) (order : List String) : List Issue :=
  (stringKeysOf p st order).filterMap (issueOf st)

/-- The state Run builds: filter test files when configured, walk all
files, then post-process.  The concurrent per-file walks are embedded
sequentially in list order. -/
def RunState (p : Parser) (files : List GoFile) : ParserState :=
  ProcessResults p
    (walkFiles p emptyState
      (files.filter (fun f => ! (p.ignoreTests && goHasSuffix f.name "_test.go"))))

/-- Run with an explicit strings-map enumeration order. -/
def RunWithOrder (p : Parser) (files : List GoFile) (order : List String) : List Issue :=
  issuesFromState p (RunState p files) order

/-- Run with the insertion-order enumeration of the strings map (one of
the orders the randomized Go map iteration may produce). -/
def Run (p : Parser) (files : List GoFile) : List Issue :=
  RunWithOrder p files (akeys (RunState p files).strs)

/-- Validity of an enumeration order for a state: Go's map range visits
every key of the strings map exactly once, in some order. -/
def ValidOrder (st : ParserState) (order : List String) : Prop :=
  order.Perm (akeys st.strs)

/-! ### ParseTree and the file pipeline (parser.go) -/

/-- The recursion dispatch of ParseTree: a path of byte length at least
5 ending in "..." is walked recursively from its prefix, anything else
is taken literally.  Byte length is Go's len; the three trailing dots
are ASCII, so the byte suffix test coincides with the character test. -/
def parseTreeDispatch (path : String) : Bool × String :=
  if 5 ≤ goLen path ∧ path.data.drop (path.data.length - 3) = ['.', '.', '.'] then
    (true, ⟨path.data.take (path.data.length - 3)⟩)
  else (false, path)

/-- Outcome of reading and parsing one file. -/
inductive FileOutcome where
  | readErr
  | parseErr
  | parsed (pkg : String) (nodes : List Node)
deriving DecidableEq

/-- One entry of a directory listing. -/
structure DirEntry where
  name : String
  isDir : Bool
  outcome : FileOutcome
deriving DecidableEq

/-- The shapes of root path the non-batched pipeline distinguishes:
a stat-able non-directory file, a root whose directory listing fails
(a missing path falls here, since the initial os.Stat error sends it to
the directory branch), or a readable directory. -/
inductive RootInput where
  | singleFile (name : String) (outcome : FileOutcome)
  | readDirErr
  | dir (entries : List DirEntry)
deriving DecidableEq

/-- shouldSkipPath from parser.go, with the compiled-or-fallback match
embedded as one optional predicate. -/
def shouldSkipPath (p : Parser) (path : String) : Bool :=
  regexMatches p.ignorePathRegex path

/-- The file filter of the directory branch: regular .go files, test
files excluded when configured, ignore-pattern paths skipped. -/
def keepDirEntry (p : Parser) (e : DirEntry) : Bool :=
  !e.isDir && goHasSuffix e.name ".go"
    && !(p.ignoreTests && goHasSuffix e.name "_test.go")
    && !shouldSkipPath p e.name

/-- A worker handling one file in the directory branch: read and parse
errors are logged and the file is skipped; a parsed file is walked. -/
def workerStep (p : Parser) (st : ParserState) (e : DirEntry) : ParserState :=
  match e.outcome with
  | .readErr => st
  | .parseErr => st
  | .parsed pkg nodes => walkFile p st ⟨e.name, pkg, nodes⟩

/-- parseTreeConcurrent from parser.go (non-batched): a single-file root
returns its read or parse error; a failing directory listing is logged
and yields empty results with no error; a directory is filtered, each
kept file processed with per-file errors skipped, and the result
post-processed.  Always returns ok in the directory branches. -/
def parseTreeConcurrent (p : Parser) (root : RootInput) :
    Except String ParserState :=
  match root with
  | .singleFile name outcome =>
      match outcome with
      | .readErr => .error "read error"
      | .parseErr => .error "parse error"
      | .parsed pkg nodes =>
          .ok (ProcessResults p (walkFile p emptyState ⟨name, pkg, nodes⟩))
  | .readDirErr => .ok (ProcessResults p emptyState)
  | .dir entries =>
      .ok (ProcessResults p
        ((entries.filter (keepDirEntry p)).foldl (workerStep p) emptyState))

/-! ### Supporting lemmas -/

theorem alookup_isSome_iff_mem {α : Type} (m : List (String × α)) (v : String) :
    (alookup m v).isSome ↔ v ∈ akeys m := by
  induction m with
  | nil => simp [alookup, akeys]
  | cons e rest ih =>
      obtain ⟨k, w⟩ := e
      by_cases h : k = v
      · subst h; simp [alookup, akeys]
      · simp [alookup, akeys, h, ih, Ne.symm h]

theorem alookup_filter_key {α : Type} (m : List (String × α)) (pred : String → Bool)
    (v : String) :
    alookup (m.filter (fun e => pred e.1)) v = if pred v then alookup m v else none := by
  induction m with
  | nil => simp [alookup]
  | cons e rest ih =>
      obtain ⟨k, w⟩ := e
      by_cases h : k = v
      · subst h
        by_cases hp : pred k <;> simp [alookup, hp, ih]
      · by_cases hp : pred k <;> simp [alookup, hp, h, ih]

theorem InternString_fst (pool : List (String × String)) (h : PoolWF pool)
    (s : String) : (InternString pool s).1 = s := by
  unfold InternString
  by_cases hs : s = ""
  · simp [hs]
  · simp only [if_neg hs]
    cases hc : alookup pool s with
    | none => simp
    | some v => simpa using h s v hc

theorem InternString_wf (pool : List (String × String)) (h : PoolWF pool)
    (s : String) : PoolWF (InternString pool s).2 := by
  unfold InternString
  by_cases hs : s = ""
  · simpa [hs] using h
  · simp only [if_neg hs]
    cases hc : alookup pool s with
    | none =>
        intro k v hk
        by_cases hks : k = s
        · subst hks
          rw [alookup_aset_self] at hk
          exact (Option.some.injEq _ _ ▸ hk).symm
        · exact h k v (by rwa [alookup_aset_ne _ _ _ _ (fun hss => hks hss.symm)] at hk)
    | some v => exact h

/-- C8: the interning pool canonicalizes strings.  Over a well-formed
pool (every entry maps a key to itself, which Store maintains),
InternString returns a string equal to its argument, hence interning two
strings gives equal results exactly when the strings are equal, and
interning an already-interned string through the updated pool is the
identity. -/
theorem C8_intern_canonical (pool : List (String × String)) (h : PoolWF pool)
    (x y s : String) :
    ((InternString pool x).1 = (InternString pool y).1 ↔ x = y)
    ∧ (InternString (InternString pool s).2 (InternString pool s).1).1
        = (InternString pool s).1 := by
  refine ⟨?_, ?_⟩
  · rw [InternString_fst pool h x, InternString_fst pool h y]
  · rw [InternString_fst _ (InternString_wf pool h s) _]

/-- Witness for C8 at a concrete pool and strings. -/
theorem C8_intern_canonical_witness :
    ((InternString [] "a").1 = (InternString [] "b").1 ↔ ("a" : String) = "b")
    ∧ (InternString (InternString [] "c").2 (InternString [] "c").1).1
        = (InternString [] "c").1 :=
  C8_intern_canonical [] (fun k v hk => by simp [alookup] at hk) "a" "b" "c"

/-- C10: ParseTree expands the recursive sentinel exactly for paths of
byte length at least 5 ending in "..."; any shorter path, including the
bare "...", is dispatched as a literal, non-recursive path. -/
theorem C10_recursive_dispatch (path : String) :
    ((parseTreeDispatch path).1 = true ↔ 5 ≤ goLen path ∧ goHasSuffix path "..." = true)
    ∧ (goLen path < 5 → parseTreeDispatch path = (false, path)) := by
  have hsuffix : goHasSuffix path "..." = true
      ↔ path.data.drop (path.data.length - 3) = ['.', '.', '.'] := by
    have h3 : ("..." : String).data = ['.', '.', '.'] := rfl
    rw [goHasSuffix, h3]
    rw [List.isSuffixOf_iff_suffix, List.suffix_iff_eq_drop]
    constructor
    · intro h; exact h.symm
    · intro h; exact h.symm
  constructor
  · rw [hsuffix]
    unfold parseTreeDispatch
    split
    · rename_i h
      simpa using h
    · rename_i h
      simpa using h
  · intro hlen
    unfold parseTreeDispatch
    rw [if_neg]
    intro hcontra
    omega

/-- Witness for C10: the bare "..." path is literal. -/
theorem C10_recursive_dispatch_witness :
    parseTreeDispatch "..." = (false, "...") :=
  (C10_recursive_dispatch "...").2 (by decide)


/-- C5: for an occurrence that passes the role, length and
ignore-pattern filters and whose canonical value parses as an integer
`i`, addString drops it (leaves the state unchanged) exactly when a
non-zero minimum bound exceeds `i` or a non-zero maximum bound is below
`i`; a bound configured as zero never causes a drop. -/
theorem C5_number_range (p : Parser) (st : ParserState) (pkg str : String)
    (pos : Position) (typ : Typ) (i : Int)
    (hTyp : p.excludeTypes typ = false)
    (hLen0 : goLen (unquoteVisitor str) ≠ 0)
    (hLen : p.minLength ≤ (goLen (unquoteVisitor str) : Int))
    (hRe : regexMatches p.ignoreStringsRegex (unquoteVisitor str) = false)
    (hParse : parseIntBase0 (unquoteVisitor str) = some i) :
    addString p st pkg str pos typ = st ↔
      (p.numberMin ≠ 0 ∧ i < p.numberMin) ∨ (p.numberMax ≠ 0 ∧ i > p.numberMax) := by
  have hdrop : numberFilterDrop p (unquoteVisitor str)
      = decide ((p.numberMin ≠ 0 ∧ i < p.numberMin) ∨ (p.numberMax ≠ 0 ∧ i > p.numberMax)) := by
    unfold numberFilterDrop
    rw [hParse]
  have h1 : ¬ (goLen (unquoteVisitor str) = 0
      ∨ (goLen (unquoteVisitor str) : Int) < p.minLength) := by omega
  unfold addString
  simp only [hTyp, Bool.false_eq_true, if_false, h1, hRe, ite_false]
  by_cases hout : (p.numberMin ≠ 0 ∧ i < p.numberMin) ∨ (p.numberMax ≠ 0 ∧ i > p.numberMax)
  · rw [if_pos]
    · simp [hout]
    · refine ⟨?_, by simp [hdrop, hout]⟩
      rcases hout with ⟨hb, _⟩ | ⟨hb, _⟩
      · exact Or.inl hb
      · exact Or.inr hb
  · rw [if_neg (by simp [hdrop, hout])]
    simp only [hout, iff_false]
    intro h
    have hsc : alookup (aset st.stringCount (unquoteVisitor str)
        ((alookup st.stringCount (unquoteVisitor str)).getD 0 + 1)) (unquoteVisitor str)
        = alookup st.stringCount (unquoteVisitor str) := by
      split at h
      · exact congrArg (fun s => alookup s.stringCount (unquoteVisitor str)) h
      · exact congrArg (fun s => alookup s.stringCount (unquoteVisitor str)) h
    rw [alookup_aset_self] at hsc
    cases hc : alookup st.stringCount (unquoteVisitor str) with
    | none => rw [hc] at hsc; simp at hsc
    | some c => rw [hc] at hsc; simp at hsc

/-- Witness for C5: with a minimum bound of 10, the integer literal 5
is dropped. -/
theorem C5_number_range_witness :
    addString { numberMin := 10 } emptyState "p" "5" ⟨"a.go", 1, 1⟩ Typ.assignment
      = emptyState :=
  (C5_number_range { numberMin := 10 } emptyState "p" "5" ⟨"a.go", 1, 1⟩ Typ.assignment 5
    rfl (by decide) (by decide) rfl (by decide)).mpr (by decide)

/-! ### Concrete example inputs used by counterexamples and witnesses -/

/-- A file with two occurrences of "beta" followed by two of "alpha". -/
def exFileBetaAlpha : GoFile :=
  ⟨"a.go", "example",
    [ .lit .assignment .str "\"beta\"" ⟨"a.go", 1, 6⟩,
      .lit .assignment .str "\"beta\"" ⟨"a.go", 2, 6⟩,
      .lit .assignment .str "\"alpha\"" ⟨"a.go", 3, 6⟩,
      .lit .assignment .str "\"alpha\"" ⟨"a.go", 4, 6⟩ ]⟩

/-- A file with three occurrences of "test". -/
def exFileTestThree : GoFile :=
  ⟨"a.go", "example",
    [ .lit .assignment .str "\"test\"" ⟨"a.go", 1, 6⟩,
      .lit .assignment .str "\"test\"" ⟨"a.go", 2, 6⟩,
      .lit .assignment .str "\"test\"" ⟨"a.go", 3, 6⟩ ]⟩

/-- A file declaring constant B = "val" in b.go. -/
def exFileConstB : GoFile :=
  ⟨"b.go", "example", [ .constDecl [⟨"B", .basicLit .str "\"val\"", ⟨"b.go", 1, 7⟩⟩] ]⟩

/-- A file declaring constant A = "val" in a.go, plus two occurrences
of "val". -/
def exFileConstA : GoFile :=
  ⟨"a.go", "example",
    [ .constDecl [⟨"A", .basicLit .str "\"val\"", ⟨"a.go", 1, 7⟩⟩],
      .lit .assignment .str "\"val\"" ⟨"a.go", 2, 6⟩,
      .lit .assignment .str "\"val\"" ⟨"a.go", 3, 6⟩ ]⟩

/-- Lexicographic (filename, line, column) comparison on positions. -/
def posBefore (a b : Position) : Prop :=
  a.filename < b.filename
    ∨ (a.filename = b.filename
        ∧ (a.line < b.line ∨ (a.line = b.line ∧ a.column < b.column)))

/-- C2, counterexample to sortedness and order-determinism: Run never
sorts the surviving values; it emits issues in the order Go's randomized
map iteration yields the keys of the strings map.  Both orders below are
valid enumerations of the same final map, they give different issue
lists, and the insertion-order enumeration is not sorted by value. -/
theorem C2_output_order_unstable :
    ValidOrder (RunState { minLength := 3, minOccurrences := 2 } [exFileBetaAlpha])
        ["alpha", "beta"]
    ∧ ValidOrder (RunState { minLength := 3, minOccurrences := 2 } [exFileBetaAlpha])
        ["beta", "alpha"]
    ∧ RunWithOrder { minLength := 3, minOccurrences := 2 } [exFileBetaAlpha]
        ["alpha", "beta"]
      ≠ RunWithOrder { minLength := 3, minOccurrences := 2 } [exFileBetaAlpha]
        ["beta", "alpha"]
    ∧ (Run { minLength := 3, minOccurrences := 2 } [exFileBetaAlpha]).map Issue.str
        = ["beta", "alpha"]
    ∧ ("alpha" : String) < "beta" := by
  refine ⟨?_, ?_, by decide, by decide, String.lt_iff_toList_lt.mpr (by decide)⟩
  · unfold ValidOrder
    decide
  · unfold ValidOrder
    decide

/-- Configuration with constant matching and duplicate tracking on. -/
def exCfgMatchDup : Parser :=
  { minLength := 3, minOccurrences := 2, matchConstant := true, findDuplicates := true }

/-- C3, counterexample: with duplicate tracking on, both declarations of
"val" are recorded, B (from b.go, processed first) ahead of A (from
a.go); the emitted issue is annotated with B, the first-recorded
declaration, even though A sits at the strictly lower
(filename, line, column) position. -/
theorem C3_counterexample :
    (Run exCfgMatchDup [exFileConstB, exFileConstA]).map Issue.matchingConst = ["B"]
    ∧ alookup (RunState exCfgMatchDup [exFileConstB, exFileConstA]).consts "val"
        = some [⟨⟨"b.go", 1, 7⟩, "B", "example"⟩, ⟨⟨"a.go", 1, 7⟩, "A", "example"⟩]
    ∧ posBefore ⟨"a.go", 1, 7⟩ ⟨"b.go", 1, 7⟩ :=
  ⟨by decide, by decide, Or.inl (String.lt_iff_toList_lt.mpr (by decide))⟩

/-- C4, counterexample: a root path that is a single file with a parse
error makes ParseTree return a non-nil error instead of logging and
continuing, while a root whose directory listing fails (for example a
path that does not exist, which os.Stat already rejected) produces an
ok result with empty maps and no error at all. -/
theorem C4_counterexample :
    parseTreeConcurrent {} (.singleFile "a.go" .parseErr) = .error "parse error"
    ∧ parseTreeConcurrent {} .readDirErr = .ok (ProcessResults {} emptyState) :=
  ⟨rfl, rfl⟩

/-- C4, amended: in the directory branch, a file whose read or parse
fails is simply skipped — removing it from the listing changes nothing —
and the directory branch always returns ok, whatever the entries. -/
theorem C4_per_file_errors_skipped (p : Parser) (pre post : List DirEntry) (e : DirEntry)
    (h : e.outcome = .readErr ∨ e.outcome = .parseErr) :
    parseTreeConcurrent p (.dir (pre ++ e :: post))
        = parseTreeConcurrent p (.dir (pre ++ post))
    ∧ ∀ entries : List DirEntry, ∃ st, parseTreeConcurrent p (.dir entries) = Except.ok st := by
  constructor
  · show Except.ok (ProcessResults p (List.foldl (workerStep p) emptyState
        (List.filter (keepDirEntry p) (pre ++ e :: post))))
      = Except.ok (ProcessResults p (List.foldl (workerStep p) emptyState
        (List.filter (keepDirEntry p) (pre ++ post))))
    congr 2
    rw [List.filter_append, List.filter_append]
    by_cases hk : keepDirEntry p e
    · rw [List.filter_cons_of_pos hk]
      rw [List.foldl_append, List.foldl_append, List.foldl_cons]
      congr 1
      rcases h with h | h <;> simp [workerStep, h]
    · rw [List.filter_cons_of_neg (by simpa using hk)]
  · intro entries
    exact ⟨_, rfl⟩

/-- Witness for C4's amended statement: a directory with one
parse-failing file behaves like an empty directory. -/
theorem C4_per_file_errors_skipped_witness :
    parseTreeConcurrent {} (.dir [⟨"a.go", false, .parseErr⟩])
      = parseTreeConcurrent {} (.dir []) :=
  (C4_per_file_errors_skipped {} [] [] ⟨"a.go", false, .parseErr⟩ (Or.inr rfl)).1

/-- Configuration with constant matching and expression evaluation on. -/
def exCfgEvalMatch : Parser :=
  { matchConstant := true, evalConstExpressions := true, minLength := 3 }

/-- Configuration like exCfgEvalMatch but with no minimum length. -/
def exCfgEvalNoMin : Parser :=
  { matchConstant := true, evalConstExpressions := true }

/-- State holding the previously recorded constant Prefix = "example.com/". -/
def exStWithPrefixConst : ParserState :=
  ⟨[], [], [("example.com/", [⟨⟨"a.go", 1, 7⟩, "Prefix", "example"⟩])]⟩

/-- C9, counterexample: both operands of `"" + "x"` are string literals,
resolving to the concrete strings "" and "x", yet the declaration is not
recorded at all: the resolver uses the empty string as its failure
sentinel, so an operand resolving to the empty string aborts the
concatenation even with no minimum-length filter in the way. -/
theorem C9_counterexample :
    resolveExprToString [] "example" (.basicLit .str "\"\"") = ""
    ∧ resolveExprToString [] "example" (.basicLit .str "\"x\"") = "x"
    ∧ visitNode exCfgEvalNoMin "example" emptyState
        (.constDecl [⟨"A", .binaryExpr .add (.basicLit .str "\"\"") (.basicLit .str "\"x\""),
          ⟨"a.go", 1, 7⟩⟩])
      = emptyState := by decide

/-- C9, amended: when the constant-declaration arm is enabled and both
operands of a `+` expression resolve to non-empty strings, the
expression evaluates to their concatenation, and the constant is
recorded under that value provided it passes the minimum-length and
ignore-pattern filters and is either the first declaration of that value
or duplicate tracking is on. -/
theorem C9_const_concat (p : Parser) (st : ParserState) (pkg name : String)
    (pos : Position) (x y : Expr) (lx ly : String)
    (hMatch : p.matchConstant = true ∨ p.findDuplicates = true)
    (hEval : p.evalConstExpressions = true)
    (hlx : resolveExprToString st.consts pkg x = lx) (hlx0 : lx ≠ "")
    (hly : resolveExprToString st.consts pkg y = ly) (hly0 : ly ≠ "")
    (hLen : p.minLength ≤ (goLen (lx ++ ly) : Int))
    (hRe : regexMatches p.ignoreStringsRegex (lx ++ ly) = false)
    (hNew : (alookup st.consts (lx ++ ly)).isNone = true ∨ p.findDuplicates = true) :
    evaluateConstExpr st.consts pkg (.binaryExpr .add x y) = lx ++ ly
    ∧ alookup (visitNode p pkg st (.constDecl [⟨name, .binaryExpr .add x y, pos⟩])).consts
        (lx ++ ly)
      = some ((alookup st.consts (lx ++ ly)).getD [] ++ [⟨pos, name, pkg⟩]) := by
  have hev : evaluateConstExpr st.consts pkg (.binaryExpr .add x y) = lx ++ ly := by
    show (if resolveExprToString st.consts pkg x ≠ "" ∧ resolveExprToString st.consts pkg y ≠ ""
        then resolveExprToString st.consts pkg x ++ resolveExprToString st.consts pkg y
        else "") = lx ++ ly
    rw [hlx, hly]
    simp [hlx0, hly0]
  refine ⟨hev, ?_⟩
  have hne : lx ++ ly ≠ "" := by
    intro hc
    apply hlx0
    have hd := congrArg String.data hc
    rw [String.data_append] at hd
    rcases List.append_eq_nil.mp hd with ⟨h1, _⟩
    cases lx with
    | mk d => cases h1; rfl
  have hcond : ¬ (¬ p.matchConstant = true ∧ ¬ p.findDuplicates = true) := by
    rcases hMatch with h | h <;> simp [h]
  show alookup ((if ¬ p.matchConstant = true ∧ ¬ p.findDuplicates = true then st
      else List.foldl (fun s sp => visitConstSpec p s pkg sp) st
        [⟨name, .binaryExpr .add x y, pos⟩])).consts (lx ++ ly) = _
  rw [if_neg hcond]
  simp only [List.foldl_cons, List.foldl_nil]
  show alookup (visitConstSpecExprArm p st pkg ⟨name, .binaryExpr .add x y, pos⟩).consts
      (lx ++ ly) = _
  unfold visitConstSpecExprArm
  simp only [hEval, if_true]
  rw [hev] at *
  simp only [hne, ne_eq, not_false_eq_true, if_true]
  unfold addConstWithValue
  rw [if_neg (not_lt.mpr hLen)]
  simp only [hRe, Bool.false_eq_true, if_false]
  rw [if_pos]
  · exact alookup_aset_self _ _ _
  · rcases hNew with h | h
    · exact Or.inl (by simpa using h)
    · exact Or.inr (by simp [h])

/-- Witness for C9: Prefix = "example.com/" already recorded, then
API = Prefix + "api" resolves to "example.com/api" and is recorded. -/
theorem C9_const_concat_witness :
    evaluateConstExpr exStWithPrefixConst.consts "example"
        (.binaryExpr .add (.ident "Prefix") (.basicLit .str "\"api\""))
      = "example.com/" ++ "api"
    ∧ alookup (visitNode exCfgEvalMatch "example" exStWithPrefixConst
        (.constDecl [⟨"API",
          .binaryExpr .add (.ident "Prefix") (.basicLit .str "\"api\""),
          ⟨"a.go", 2, 7⟩⟩])).consts ("example.com/" ++ "api")
      = some ((alookup exStWithPrefixConst.consts ("example.com/" ++ "api")).getD []
          ++ [⟨⟨"a.go", 2, 7⟩, "API", "example"⟩]) :=
  C9_const_concat exCfgEvalMatch exStWithPrefixConst "example" "API" ⟨"a.go", 2, 7⟩
    (.ident "Prefix") (.basicLit .str "\"api\"") "example.com/" "api"
    (Or.inl rfl) rfl (by decide) (by decide) (by decide) (by decide)
    (by decide) rfl (Or.inl (by decide))

/-- Nodes kept when excluded-role occurrences are deleted from a walk. -/
def keepNode (p : Parser) : Node → Bool
  | .lit typ _ _ _ => ! p.excludeTypes typ
  | _ => true

/-- A file with its excluded-role literal occurrences deleted. -/
def removeExcluded (p : Parser) (f : GoFile) : GoFile :=
  { f with nodes := f.nodes.filter (keepNode p) }

theorem addString_excluded (p : Parser) (st : ParserState) (pkg v : String)
    (pos : Position) (typ : Typ) (h : p.excludeTypes typ = true) :
    addString p st pkg v pos typ = st := by
  unfold addString
  simp [h]

theorem visitNode_excluded (p : Parser) (pkg : String) (st : ParserState) (n : Node)
    (h : keepNode p n = false) : visitNode p pkg st n = st := by
  cases n with
  | constDecl specs => simp [keepNode] at h
  | lit typ kind v pos =>
      have hx : p.excludeTypes typ = true := by simpa [keepNode] using h
      show (if isSupported p kind = true then addString p st pkg v pos typ else st) = st
      split
      · exact addString_excluded p st pkg v pos typ hx
      · rfl

theorem foldl_filter_id {α β : Type} (step : β → α → β) (pred : α → Bool) (l : List α)
    (h : ∀ a, pred a = false → ∀ s, step s a = s) :
    ∀ st, l.foldl step st = (l.filter pred).foldl step st := by
  induction l with
  | nil => intro st; rfl
  | cons a rest ih =>
      intro st
      by_cases ha : pred a = true
      · rw [List.filter_cons_of_pos ha]
        simp only [List.foldl_cons]
        exact ih _
      · rw [List.filter_cons_of_neg (by simpa using ha)]
        simp only [List.foldl_cons]
        rw [h a (by simpa using ha) st]
        exact ih st

theorem walkFile_removeExcluded (p : Parser) (st : ParserState) (f : GoFile) :
    walkFile p st (removeExcluded p f) = walkFile p st f := by
  unfold walkFile removeExcluded
  exact (foldl_filter_id _ _ _
    (fun n hn s => visitNode_excluded p f.pkg s n hn) st).symm

theorem walkFiles_removeExcluded (p : Parser) (st : ParserState) (files : List GoFile) :
    walkFiles p st (files.map (removeExcluded p)) = walkFiles p st files := by
  induction files generalizing st with
  | nil => rfl
  | cons f rest ih =>
      simp only [walkFiles, List.foldl_cons, List.map_cons] at *
      rw [walkFile_removeExcluded]
      exact ih _

/-- C6: role-exclusion closure.  Deleting every excluded-role occurrence
from the input files changes neither the final aggregation state nor the
emitted issues: an occurrence whose role is excluded contributes nothing
to any count, occurrence list, or issue. -/
theorem C6_role_exclusion_closure (p : Parser) (files : List GoFile) :
    RunState p files = RunState p (files.map (removeExcluded p))
    ∧ Run p files = Run p (files.map (removeExcluded p)) := by
  have hfilter : (files.map (removeExcluded p)).filter
      (fun f => ! (p.ignoreTests && goHasSuffix f.name "_test.go"))
      = (files.filter (fun f => ! (p.ignoreTests && goHasSuffix f.name "_test.go"))).map
        (removeExcluded p) := by
    induction files with
    | nil => rfl
    | cons f rest ih =>
        have hname : goHasSuffix (removeExcluded p f).name "_test.go"
            = goHasSuffix f.name "_test.go" := rfl
        simp only [List.map_cons, List.filter_cons, hname]
        by_cases hb : (! (p.ignoreTests && goHasSuffix f.name "_test.go")) = true
        · simp [hb]
          simpa using ih
        · simp [hb]
          simpa using ih
  have hstate : RunState p files = RunState p (files.map (removeExcluded p)) := by
    unfold RunState
    rw [hfilter]
    congr 1
    exact (walkFiles_removeExcluded p emptyState _).symm
  refine ⟨hstate, ?_⟩
  unfold Run RunWithOrder
  rw [hstate]

/-- Invariant relating the two string maps: the stored occurrence list
never exceeds the occurrence count. -/
def CountBound (st : ParserState) : Prop :=
  ∀ v, ((alookup st.strs v).getD []).length ≤ (alookup st.stringCount v).getD 0

theorem countBound_empty : CountBound emptyState := by
  intro v
  simp [emptyState, alookup]

theorem addString_countBound (p : Parser) (st : ParserState) (pkg v : String)
    (pos : Position) (typ : Typ) (h : CountBound st) :
    CountBound (addString p st pkg v pos typ) := by
  unfold addString
  dsimp only
  split
  · exact h
  · split
    · exact h
    · split
      · exact h
      · split
        · exact h
        · split
          · intro w
            by_cases hw : unquoteVisitor v = w
            · subst hw
              simp only [alookup_aset_self, Option.getD_some, List.length_append,
                List.length_cons, List.length_nil]
              have := h (unquoteVisitor v)
              omega
            · simp only [alookup_aset_ne _ _ _ _ hw]
              exact h w
          · intro w
            by_cases hw : unquoteVisitor v = w
            · subst hw
              simp only [alookup_aset_self, Option.getD_some]
              have := h (unquoteVisitor v)
              omega
            · simp only [alookup_aset_ne _ _ _ _ hw]
              exact h w

theorem addConst_preserves (p : Parser) (st : ParserState) (pkg n v : String)
    (pos : Position) :
    (addConst p st pkg n v pos).strs = st.strs
    ∧ (addConst p st pkg n v pos).stringCount = st.stringCount := by
  unfold addConst
  dsimp only
  split_ifs <;> simp

theorem addConstWithValue_preserves (p : Parser) (st : ParserState) (pkg n v : String)
    (pos : Position) :
    (addConstWithValue p st pkg n v pos).strs = st.strs
    ∧ (addConstWithValue p st pkg n v pos).stringCount = st.stringCount := by
  unfold addConstWithValue
  split_ifs <;> simp

theorem visitConstSpecExprArm_preserves (p : Parser) (st : ParserState) (pkg : String)
    (sp : ConstSpec) :
    (visitConstSpecExprArm p st pkg sp).strs = st.strs
    ∧ (visitConstSpecExprArm p st pkg sp).stringCount = st.stringCount := by
  unfold visitConstSpecExprArm
  dsimp only
  split_ifs <;> first
    | exact ⟨rfl, rfl⟩
    | exact addConstWithValue_preserves p st pkg sp.name _ sp.pos

theorem visitConstSpec_preserves (p : Parser) (st : ParserState) (pkg : String)
    (sp : ConstSpec) :
    (visitConstSpec p st pkg sp).strs = st.strs
    ∧ (visitConstSpec p st pkg sp).stringCount = st.stringCount := by
  unfold visitConstSpec
  split
  · split
    · exact addConst_preserves p st pkg sp.name _ sp.pos
    · exact visitConstSpecExprArm_preserves p st pkg sp
  · exact visitConstSpecExprArm_preserves p st pkg sp

theorem constDeclFold_preserves (p : Parser) (pkg : String) (specs : List ConstSpec) :
    ∀ st : ParserState,
      (specs.foldl (fun s sp => visitConstSpec p s pkg sp) st).strs = st.strs
      ∧ (specs.foldl (fun s sp => visitConstSpec p s pkg sp) st).stringCount
          = st.stringCount := by
  induction specs with
  | nil => intro st; exact ⟨rfl, rfl⟩
  | cons sp rest ih =>
      intro st
      simp only [List.foldl_cons]
      obtain ⟨h1, h2⟩ := ih (visitConstSpec p st pkg sp)
      obtain ⟨g1, g2⟩ := visitConstSpec_preserves p st pkg sp
      exact ⟨h1.trans g1, h2.trans g2⟩

theorem visitNode_countBound (p : Parser) (pkg : String) (st : ParserState) (n : Node)
    (h : CountBound st) : CountBound (visitNode p pkg st n) := by
  cases n with
  | constDecl specs =>
      show CountBound (if ¬ p.matchConstant = true ∧ ¬ p.findDuplicates = true then st
        else specs.foldl (fun s sp => visitConstSpec p s pkg sp) st)
      split
      · exact h
      · intro w
        obtain ⟨h1, h2⟩ := constDeclFold_preserves p pkg specs st
        rw [h1, h2]
        exact h w
  | lit typ kind v pos =>
      show CountBound (if isSupported p kind = true then addString p st pkg v pos typ else st)
      split
      · exact addString_countBound p st pkg v pos typ h
      · exact h

theorem walkFiles_countBound (p : Parser) (files : List GoFile) :
    ∀ st : ParserState, CountBound st → CountBound (walkFiles p st files) := by
  have hfile : ∀ (f : GoFile) (st : ParserState), CountBound st
      → CountBound (walkFile p st f) := by
    intro f
    unfold walkFile
    induction f.nodes with
    | nil => intro st h; exact h
    | cons n rest ih =>
        intro st h
        simp only [List.foldl_cons]
        exact ih _ (visitNode_countBound p f.pkg st n h)
  induction files with
  | nil => intro st h; exact h
  | cons f rest ih =>
      intro st h
      simp only [walkFiles, List.foldl_cons] at *
      exact ih _ (hfile f st h)

theorem processResults_countBound (p : Parser) (st : ParserState)
    (h : CountBound st) : CountBound (ProcessResults p st) := by
  intro v
  unfold ProcessResults
  simp only
  rw [alookup_filter_key st.strs (fun s => ! dropKey p st s) v,
    alookup_filter_key st.stringCount
      (fun s => ! ((alookup st.strs s).isSome && dropKey p st s)) v]
  by_cases hd : dropKey p st v
  · simp [hd]
  · simp only [hd, Bool.not_false, if_true, Bool.and_false, if_pos]
    exact h v

/-- C1, counterexample: three occurrences of "test" with a threshold of
two give an emitted count of 3 but a stored occurrence list of length 2:
addString appends a position only on the first occurrence and on the
threshold crossing, and ProcessResults never reconciles the two. -/
theorem C1_counterexample :
    (Run { minLength := 3, minOccurrences := 2 } [exFileTestThree]).map
      (fun i => (i.occurrencesCount,
        ((alookup (RunState { minLength := 3, minOccurrences := 2 }
          [exFileTestThree]).strs i.str).getD []).length))
      = [(3, 2)] := by decide

/-- C1, amended: for every emitted issue, the recorded occurrence count
dominates the length of the stored occurrence list for its value, and
that list is non-empty; equality can fail because only the first and the
threshold-crossing occurrences are materialized. -/
theorem C1_count_bounds_occurrences (p : Parser) (files : List GoFile) (i : Issue)
    (hi : i ∈ Run p files) :
    ((alookup (RunState p files).strs i.str).getD []).length ≤ i.occurrencesCount
    ∧ (alookup (RunState p files).strs i.str).getD [] ≠ [] := by
  have hcb : CountBound (RunState p files) :=
    processResults_countBound p _ (walkFiles_countBound p _ emptyState countBound_empty)
  unfold Run RunWithOrder issuesFromState at hi
  rw [List.mem_filterMap] at hi
  obtain ⟨s, hs, hsome⟩ := hi
  unfold issueOf at hsome
  cases hmatch : (alookup (RunState p files).strs s).getD [] with
  | nil => rw [hmatch] at hsome; exact absurd hsome (by simp)
  | cons fi rest =>
      rw [hmatch] at hsome
      simp only [Option.some.injEq] at hsome
      have hstr : i.str = s := by rw [← hsome]
      have hcnt : i.occurrencesCount = (alookup (RunState p files).stringCount s).getD 0 := by
        rw [← hsome]
      rw [hstr, hcnt]
      refine ⟨hcb s, ?_⟩
      rw [hmatch]
      simp

/-- Witness for C1's amended statement at the three-occurrence input. -/
theorem C1_count_bounds_occurrences_witness :
    ((alookup (RunState { minLength := 3, minOccurrences := 2 } [exFileTestThree]).strs
        (⟨⟨"a.go", 1, 6⟩, 3, "test", ""⟩ : Issue).str).getD []).length
      ≤ (⟨⟨"a.go", 1, 6⟩, 3, "test", ""⟩ : Issue).occurrencesCount
    ∧ (alookup (RunState { minLength := 3, minOccurrences := 2 } [exFileTestThree]).strs
        (⟨⟨"a.go", 1, 6⟩, 3, "test", ""⟩ : Issue).str).getD [] ≠ [] :=
  C1_count_bounds_occurrences { minLength := 3, minOccurrences := 2 } [exFileTestThree]
    ⟨⟨"a.go", 1, 6⟩, 3, "test", ""⟩ (by decide)

theorem addString_consts (p : Parser) (st : ParserState) (pkg v : String)
    (pos : Position) (typ : Typ) :
    (addString p st pkg v pos typ).consts = st.consts := by
  unfold addString
  dsimp only
  split_ifs <;> rfl

theorem addConst_head (p : Parser) (st : ParserState) (pkg nm val : String)
    (pos : Position) (v : String) (d : ConstType) (ds : List ConstType)
    (h : alookup st.consts v = some (d :: ds)) :
    ∃ ds', alookup (addConst p st pkg nm val pos).consts v = some (d :: ds') := by
  unfold addConst
  dsimp only
  split_ifs with h1 h2 h3
  · exact ⟨ds, h⟩
  · exact ⟨ds, h⟩
  · by_cases hv : unquoteVisitor val = v
    · subst hv
      refine ⟨ds ++ [⟨pos, nm, pkg⟩], ?_⟩
      rw [h, alookup_aset_self]
      simp
    · rw [alookup_aset_ne _ _ _ _ hv]
      exact ⟨ds, h⟩
  · exact ⟨ds, h⟩

theorem addConstWithValue_head (p : Parser) (st : ParserState) (pkg nm val : String)
    (pos : Position) (v : String) (d : ConstType) (ds : List ConstType)
    (h : alookup st.consts v = some (d :: ds)) :
    ∃ ds', alookup (addConstWithValue p st pkg nm val pos).consts v = some (d :: ds') := by
  unfold addConstWithValue
  split_ifs with h1 h2 h3
  · exact ⟨ds, h⟩
  · exact ⟨ds, h⟩
  · by_cases hv : val = v
    · subst hv
      refine ⟨ds ++ [⟨pos, nm, pkg⟩], ?_⟩
      rw [h, alookup_aset_self]
      simp
    · rw [alookup_aset_ne _ _ _ _ hv]
      exact ⟨ds, h⟩
  · exact ⟨ds, h⟩

theorem visitConstSpec_head (p : Parser) (st : ParserState) (pkg : String)
    (sp : ConstSpec) (v : String) (d : ConstType) (ds : List ConstType)
    (h : alookup st.consts v = some (d :: ds)) :
    ∃ ds', alookup (visitConstSpec p st pkg sp).consts v = some (d :: ds') := by
  have harm : ∃ ds', alookup (visitConstSpecExprArm p st pkg sp).consts v
      = some (d :: ds') := by
    unfold visitConstSpecExprArm
    dsimp only
    split_ifs
    · exact addConstWithValue_head p st pkg sp.name _ sp.pos v d ds h
    · exact ⟨ds, h⟩
    · exact ⟨ds, h⟩
  unfold visitConstSpec
  split
  · split
    · exact addConst_head p st pkg sp.name _ sp.pos v d ds h
    · exact harm
  · exact harm

theorem constDeclFold_head (p : Parser) (pkg : String) (specs : List ConstSpec) :
    ∀ (st : ParserState) (v : String) (d : ConstType) (ds : List ConstType),
      alookup st.consts v = some (d :: ds) →
      ∃ ds', alookup ((specs.foldl (fun s sp => visitConstSpec p s pkg sp) st)).consts v
        = some (d :: ds') := by
  induction specs with
  | nil => exact fun st v d ds h => ⟨ds, h⟩
  | cons sp rest ih =>
      intro st v d ds h
      simp only [List.foldl_cons]
      obtain ⟨ds1, h1⟩ := visitConstSpec_head p st pkg sp v d ds h
      exact ih _ v d ds1 h1

theorem visitNode_head (p : Parser) (pkg : String) (st : ParserState) (n : Node)
    (v : String) (d : ConstType) (ds : List ConstType)
    (h : alookup st.consts v = some (d :: ds)) :
    ∃ ds', alookup (visitNode p pkg st n).consts v = some (d :: ds') := by
  cases n with
  | constDecl specs =>
      show ∃ ds', alookup ((if ¬ p.matchConstant = true ∧ ¬ p.findDuplicates = true then st
        else specs.foldl (fun s sp => visitConstSpec p s pkg sp) st)).consts v
          = some (d :: ds')
      split
      · exact ⟨ds, h⟩
      · exact constDeclFold_head p pkg specs st v d ds h
  | lit typ kind val pos =>
      show ∃ ds', alookup ((if isSupported p kind = true
          then addString p st pkg val pos typ else st)).consts v = some (d :: ds')
      split
      · rw [addString_consts]
        exact ⟨ds, h⟩
      · exact ⟨ds, h⟩

theorem walkFile_head (p : Parser) (f : GoFile) :
    ∀ (st : ParserState) (v : String) (d : ConstType) (ds : List ConstType),
      alookup st.consts v = some (d :: ds) →
      ∃ ds', alookup (walkFile p st f).consts v = some (d :: ds') := by
  unfold walkFile
  induction f.nodes with
  | nil => exact fun st v d ds h => ⟨ds, h⟩
  | cons n rest ih =>
      intro st v d ds h
      simp only [List.foldl_cons]
      obtain ⟨ds1, h1⟩ := visitNode_head p f.pkg st n v d ds h
      exact ih _ v d ds1 h1

/-- C3, amended: the constant name annotating an emitted issue is the
name of the FIRST declaration recorded for its value in processing
order, not the declaration at the lowest (filename, line, column)
position: the head of the constants-for-value list determines the
annotation, and walking further files never displaces an existing head. -/
theorem C3_matching_const_first_recorded (p : Parser) (files : List GoFile) (i : Issue)
    (hi : i ∈ Run p files) (c : ConstType) (cs : List ConstType)
    (hc : alookup (RunState p files).consts i.str = some (c :: cs)) :
    i.matchingConst = c.name
    ∧ ∀ (st : ParserState) (f : GoFile) (v : String) (d : ConstType)
        (ds : List ConstType),
        alookup st.consts v = some (d :: ds) →
        ∃ ds', alookup (walkFile p st f).consts v = some (d :: ds') := by
  refine ⟨?_, fun st f v d ds h => walkFile_head p f st v d ds h⟩
  unfold Run RunWithOrder issuesFromState at hi
  rw [List.mem_filterMap] at hi
  obtain ⟨s, hs, hsome⟩ := hi
  unfold issueOf at hsome
  cases hmatch : (alookup (RunState p files).strs s).getD [] with
  | nil => rw [hmatch] at hsome; exact absurd hsome (by simp)
  | cons fi rest =>
      rw [hmatch] at hsome
      simp only [Option.some.injEq] at hsome
      have hstr : i.str = s := by rw [← hsome]
      rw [hstr] at hc
      have hne : (RunState p files).consts ≠ [] := by
        intro hnil
        rw [hnil] at hc
        simp [alookup] at hc
      have : i.matchingConst = if (RunState p files).consts ≠ [] then
          match alookup (RunState p files).consts s with
          | some (c' :: _) => c'.name
          | _ => ""
        else "" := by rw [← hsome]
      rw [this, if_pos hne, hc]

/-- Witness for C3's amended statement: at the two-file input the
annotation is indeed the head declaration's name B. -/
theorem C3_matching_const_first_recorded_witness :
    (⟨⟨"a.go", 2, 6⟩, 2, "val", "B"⟩ : Issue).matchingConst
      = (⟨⟨"b.go", 1, 7⟩, "B", "example"⟩ : ConstType).name :=
  (C3_matching_const_first_recorded exCfgMatchDup [exFileConstB, exFileConstA]
    ⟨⟨"a.go", 2, 6⟩, 2, "val", "B"⟩ (by decide)
    ⟨⟨"b.go", 1, 7⟩, "B", "example"⟩ [⟨⟨"a.go", 1, 7⟩, "A", "example"⟩] (by decide)).1

/-- Well-formedness of the aggregation state maintained by the walk: a
value sits in the strings map exactly when its count is positive, and
stored occurrence lists are never empty. -/
def StateWF (s : ParserState) : Prop :=
  ∀ v, ((alookup s.strs v).isSome ↔ 1 ≤ (alookup s.stringCount v).getD 0)
    ∧ ∀ l, alookup s.strs v = some l → l ≠ []

/-- Relation between two walks that differ only in the configured
minimum-occurrence threshold: equal counts, equal constants, equal
string-map keys, and equal first stored occurrence per value (the full
occurrence lists may differ because the threshold gates the appends). -/
def SimRel (s1 s2 : ParserState) : Prop :=
  s1.stringCount = s2.stringCount ∧ s1.consts = s2.consts
    ∧ akeys s1.strs = akeys s2.strs
    ∧ ∀ v, ((alookup s1.strs v).getD []).head? = ((alookup s2.strs v).getD []).head?

theorem stateWF_empty : StateWF emptyState := by
  intro v
  constructor
  · simp [emptyState, alookup]
  · intro l hl
    simp [emptyState, alookup] at hl

theorem simRel_empty : SimRel emptyState emptyState := ⟨rfl, rfl, rfl, fun _ => rfl⟩

theorem numberFilterDrop_minOcc (p : Parser) (k : Int) (s : String) :
    numberFilterDrop { p with minOccurrences := k } s = numberFilterDrop p s := rfl

theorem isSupported_minOcc (p : Parser) (k : Int) (t : Tok) :
    isSupported { p with minOccurrences := k } t = isSupported p t := rfl

theorem headq_append {α : Type} (l : List α) (x : α) :
    (l ++ [x]).head? = some (l.head?.getD x) := by
  cases l <;> simp

theorem addString_wf (p : Parser) (st : ParserState) (pkg v : String)
    (pos : Position) (typ : Typ) (h : StateWF st) :
    StateWF (addString p st pkg v pos typ) := by
  unfold addString
  dsimp only
  split_ifs with h1 h2 h3 h4 h5
  · exact h
  · exact h
  · exact h
  · exact h
  · intro w
    by_cases hw : unquoteVisitor v = w
    · subst hw
      constructor
      · simp [alookup_aset_self]
      · intro l hl
        rw [alookup_aset_self] at hl
        cases hl
        simp
    · constructor
      · rw [alookup_aset_ne _ _ _ _ hw, alookup_aset_ne _ _ _ _ hw]
        exact (h w).1
      · intro l hl
        rw [alookup_aset_ne _ _ _ _ hw] at hl
        exact (h w).2 l hl
  · intro w
    by_cases hw : unquoteVisitor v = w
    · subst hw
      have hc1 : ¬ (alookup st.stringCount (unquoteVisitor v)).getD 0 + 1 = 1 := by
        intro hcontra
        exact h5 (Or.inl hcontra)
      constructor
      · rw [alookup_aset_self]
        simp only [Option.getD_some]
        have := ((h (unquoteVisitor v)).1).mpr (by omega)
        simp [this]
      · exact (h (unquoteVisitor v)).2
    · constructor
      · rw [alookup_aset_ne _ _ _ _ hw]
        exact (h w).1
      · exact (h w).2

theorem addString_sim (p : Parser) (k1 k2 : Int) (s1 s2 : ParserState)
    (hsc : s1.stringCount = s2.stringCount) (hco : s1.consts = s2.consts)
    (hkeys : akeys s1.strs = akeys s2.strs)
    (hhead : ∀ w, ((alookup s1.strs w).getD []).head? = ((alookup s2.strs w).getD []).head?)
    (h1 : StateWF s1) (h2 : StateWF s2)
    (pkg v : String) (pos : Position) (typ : Typ) :
    SimRel (addString { p with minOccurrences := k1 } s1 pkg v pos typ)
           (addString { p with minOccurrences := k2 } s2 pkg v pos typ) := by
  have hiso : (alookup s1.strs (unquoteVisitor v)).isSome
      = (alookup s2.strs (unquoteVisitor v)).isSome := by
    rw [Bool.eq_iff_iff, alookup_isSome_iff_mem, alookup_isSome_iff_mem, hkeys]
  unfold addString
  dsimp only
  simp only [numberFilterDrop_minOcc]
  rw [hsc]
  by_cases c1 : p.excludeTypes typ = true
  · rw [if_pos c1, if_pos c1]
    exact ⟨hsc, hco, hkeys, hhead⟩
  rw [if_neg c1, if_neg c1]
  by_cases c2 : goLen (unquoteVisitor v) = 0 ∨ (goLen (unquoteVisitor v) : Int) < p.minLength
  · rw [if_pos c2, if_pos c2]
    exact ⟨hsc, hco, hkeys, hhead⟩
  rw [if_neg c2, if_neg c2]
  by_cases c3 : regexMatches p.ignoreStringsRegex (unquoteVisitor v) = true
  · rw [if_pos c3, if_pos c3]
    exact ⟨hsc, hco, hkeys, hhead⟩
  rw [if_neg c3, if_neg c3]
  by_cases c4 : (p.numberMin ≠ 0 ∨ p.numberMax ≠ 0)
      ∧ numberFilterDrop p (unquoteVisitor v) = true
  · rw [if_pos c4, if_pos c4]
    exact ⟨hsc, hco, hkeys, hhead⟩
  rw [if_neg c4, if_neg c4]
  by_cases g1 : (alookup s2.stringCount (unquoteVisitor v)).getD 0 + 1 = 1
      ∨ (((alookup s2.stringCount (unquoteVisitor v)).getD 0 + 1 : Nat) : Int) = k1
  · by_cases g2 : (alookup s2.stringCount (unquoteVisitor v)).getD 0 + 1 = 1
        ∨ (((alookup s2.stringCount (unquoteVisitor v)).getD 0 + 1 : Nat) : Int) = k2
    · rw [if_pos g1, if_pos g2]
      refine ⟨rfl, hco, ?_, ?_⟩
      · rw [akeys_aset, akeys_aset, hiso, hkeys]
      · intro w
        by_cases hw : unquoteVisitor v = w
        · subst hw
          rw [alookup_aset_self, alookup_aset_self]
          simp only [Option.getD_some]
          rw [headq_append, headq_append, hhead (unquoteVisitor v)]
        · rw [alookup_aset_ne _ _ _ _ hw, alookup_aset_ne _ _ _ _ hw]
          exact hhead w
    · rw [if_pos g1, if_neg g2]
      have hcnt1 : ¬ (alookup s2.stringCount (unquoteVisitor v)).getD 0 + 1 = 1 := by
        intro hcontra
        exact g2 (Or.inl hcontra)
      have hl1s : (alookup s1.strs (unquoteVisitor v)).isSome :=
        (h1 (unquoteVisitor v)).1.mpr (by rw [hsc]; omega)
      refine ⟨rfl, hco, ?_, ?_⟩
      · rw [akeys_aset, if_pos hl1s]
        exact hkeys
      · intro w
        by_cases hw : unquoteVisitor v = w
        · subst hw
          rw [alookup_aset_self]
          simp only [Option.getD_some]
          rw [headq_append]
          obtain ⟨l1, hl1⟩ := Option.isSome_iff_exists.mp hl1s
          have hlne : l1 ≠ [] := (h1 (unquoteVisitor v)).2 l1 hl1
          have hh := hhead (unquoteVisitor v)
          rw [hl1] at hh ⊢
          simp only [Option.getD_some] at hh ⊢
          cases l1 with
          | nil => exact absurd rfl hlne
          | cons a t => simpa using hh
        · rw [alookup_aset_ne _ _ _ _ hw]
          exact hhead w
  · by_cases g2 : (alookup s2.stringCount (unquoteVisitor v)).getD 0 + 1 = 1
        ∨ (((alookup s2.stringCount (unquoteVisitor v)).getD 0 + 1 : Nat) : Int) = k2
    · rw [if_neg g1, if_pos g2]
      have hcnt1 : ¬ (alookup s2.stringCount (unquoteVisitor v)).getD 0 + 1 = 1 := by
        intro hcontra
        exact g1 (Or.inl hcontra)
      have hl2s : (alookup s2.strs (unquoteVisitor v)).isSome :=
        (h2 (unquoteVisitor v)).1.mpr (by omega)
      refine ⟨rfl, hco, ?_, ?_⟩
      · rw [akeys_aset, if_pos hl2s]
        exact hkeys
      · intro w
        by_cases hw : unquoteVisitor v = w
        · subst hw
          rw [alookup_aset_self]
          simp only [Option.getD_some]
          rw [headq_append]
          obtain ⟨l2, hl2⟩ := Option.isSome_iff_exists.mp hl2s
          have hlne : l2 ≠ [] := (h2 (unquoteVisitor v)).2 l2 hl2
          have hh := hhead (unquoteVisitor v)
          rw [hl2] at hh ⊢
          simp only [Option.getD_some] at hh ⊢
          cases l2 with
          | nil => exact absurd rfl hlne
          | cons a t => simpa using hh
        · rw [alookup_aset_ne _ _ _ _ hw]
          exact hhead w
    · rw [if_neg g1, if_neg g2]
      exact ⟨rfl, hco, hkeys, hhead⟩

theorem wf_of_components (s s' : ParserState) (hs : s'.strs = s.strs)
    (hc : s'.stringCount = s.stringCount) (h : StateWF s) : StateWF s' := by
  intro v
  rw [hs, hc]
  exact h v

theorem visitNode_wf (p : Parser) (pkg : String) (st : ParserState) (n : Node)
    (h : StateWF st) : StateWF (visitNode p pkg st n) := by
  cases n with
  | constDecl specs =>
      show StateWF (if ¬ p.matchConstant = true ∧ ¬ p.findDuplicates = true then st
        else specs.foldl (fun s sp => visitConstSpec p s pkg sp) st)
      split
      · exact h
      · obtain ⟨h1, h2⟩ := constDeclFold_preserves p pkg specs st
        exact wf_of_components st _ h1 h2 h
  | lit typ kind v pos =>
      show StateWF (if isSupported p kind = true then addString p st pkg v pos typ else st)
      split
      · exact addString_wf p st pkg v pos typ h
      · exact h

theorem visitConstSpec_consts_congr (p : Parser) (k1 k2 : Int) (s1 s2 : ParserState)
    (pkg : String) (sp : ConstSpec) (hc : s1.consts = s2.consts) :
    (visitConstSpec { p with minOccurrences := k1 } s1 pkg sp).consts
      = (visitConstSpec { p with minOccurrences := k2 } s2 pkg sp).consts := by
  unfold visitConstSpec visitConstSpecExprArm addConst addConstWithValue
  dsimp only
  simp only [isSupported_minOcc]
  rw [hc]
  split <;> split_ifs <;> first | rfl | exact hc

theorem visitConstSpec_sim (p : Parser) (k1 k2 : Int) (s1 s2 : ParserState)
    (pkg : String) (sp : ConstSpec) (hsim : SimRel s1 s2) :
    SimRel (visitConstSpec { p with minOccurrences := k1 } s1 pkg sp)
           (visitConstSpec { p with minOccurrences := k2 } s2 pkg sp) := by
  obtain ⟨hsc, hco, hkeys, hhead⟩ := hsim
  obtain ⟨e1s, e1c⟩ := visitConstSpec_preserves { p with minOccurrences := k1 } s1 pkg sp
  obtain ⟨e2s, e2c⟩ := visitConstSpec_preserves { p with minOccurrences := k2 } s2 pkg sp
  refine ⟨?_, ?_, ?_, ?_⟩
  · rw [e1c, e2c]; exact hsc
  · exact visitConstSpec_consts_congr p k1 k2 s1 s2 pkg sp hco
  · rw [show akeys (visitConstSpec { p with minOccurrences := k1 } s1 pkg sp).strs
        = akeys s1.strs from congrArg akeys e1s,
      show akeys (visitConstSpec { p with minOccurrences := k2 } s2 pkg sp).strs
        = akeys s2.strs from congrArg akeys e2s]
    exact hkeys
  · intro w
    rw [e1s, e2s]
    exact hhead w

theorem constDeclFold_sim (p : Parser) (k1 k2 : Int) (pkg : String)
    (specs : List ConstSpec) :
    ∀ s1 s2 : ParserState, SimRel s1 s2 →
      SimRel (specs.foldl (fun s sp =>
          visitConstSpec { p with minOccurrences := k1 } s pkg sp) s1)
        (specs.foldl (fun s sp =>
          visitConstSpec { p with minOccurrences := k2 } s pkg sp) s2) := by
  induction specs with
  | nil => exact fun s1 s2 h => h
  | cons sp rest ih =>
      intro s1 s2 h
      simp only [List.foldl_cons]
      exact ih _ _ (visitConstSpec_sim p k1 k2 s1 s2 pkg sp h)

theorem visitNode_sim (p : Parser) (k1 k2 : Int) (s1 s2 : ParserState)
    (pkg : String) (n : Node) (hsim : SimRel s1 s2)
    (h1 : StateWF s1) (h2 : StateWF s2) :
    SimRel (visitNode { p with minOccurrences := k1 } pkg s1 n)
           (visitNode { p with minOccurrences := k2 } pkg s2 n) := by
  cases n with
  | constDecl specs =>
      show SimRel
        (if ¬ p.matchConstant = true ∧ ¬ p.findDuplicates = true then s1
          else specs.foldl (fun s sp =>
            visitConstSpec { p with minOccurrences := k1 } s pkg sp) s1)
        (if ¬ p.matchConstant = true ∧ ¬ p.findDuplicates = true then s2
          else specs.foldl (fun s sp =>
            visitConstSpec { p with minOccurrences := k2 } s pkg sp) s2)
      by_cases hcond : ¬ p.matchConstant = true ∧ ¬ p.findDuplicates = true
      · rw [if_pos hcond, if_pos hcond]
        exact hsim
      · rw [if_neg hcond, if_neg hcond]
        exact constDeclFold_sim p k1 k2 pkg specs s1 s2 hsim
  | lit typ kind v pos =>
      show SimRel
        (if isSupported { p with minOccurrences := k1 } kind = true
          then addString { p with minOccurrences := k1 } s1 pkg v pos typ else s1)
        (if isSupported { p with minOccurrences := k2 } kind = true
          then addString { p with minOccurrences := k2 } s2 pkg v pos typ else s2)
      simp only [isSupported_minOcc]
      by_cases hsup : isSupported p kind = true
      · rw [if_pos hsup, if_pos hsup]
        obtain ⟨hsc, hco, hkeys, hhead⟩ := hsim
        exact addString_sim p k1 k2 s1 s2 hsc hco hkeys hhead h1 h2 pkg v pos typ
      · rw [if_neg hsup, if_neg hsup]
        exact hsim

theorem walkFile_sim (p : Parser) (k1 k2 : Int) (f : GoFile) :
    ∀ s1 s2 : ParserState, SimRel s1 s2 → StateWF s1 → StateWF s2 →
      SimRel (walkFile { p with minOccurrences := k1 } s1 f)
          (walkFile { p with minOccurrences := k2 } s2 f)
        ∧ StateWF (walkFile { p with minOccurrences := k1 } s1 f)
        ∧ StateWF (walkFile { p with minOccurrences := k2 } s2 f) := by
  unfold walkFile
  induction f.nodes with
  | nil => exact fun s1 s2 hsim h1 h2 => ⟨hsim, h1, h2⟩
  | cons n rest ih =>
      intro s1 s2 hsim h1 h2
      simp only [List.foldl_cons]
      exact ih _ _ (visitNode_sim p k1 k2 s1 s2 f.pkg n hsim h1 h2)
        (visitNode_wf _ f.pkg s1 n h1) (visitNode_wf _ f.pkg s2 n h2)

theorem walkFiles_sim (p : Parser) (k1 k2 : Int) (files : List GoFile) :
    ∀ s1 s2 : ParserState, SimRel s1 s2 → StateWF s1 → StateWF s2 →
      SimRel (walkFiles { p with minOccurrences := k1 } s1 files)
          (walkFiles { p with minOccurrences := k2 } s2 files)
        ∧ StateWF (walkFiles { p with minOccurrences := k1 } s1 files)
        ∧ StateWF (walkFiles { p with minOccurrences := k2 } s2 files) := by
  induction files with
  | nil => exact fun s1 s2 hsim h1 h2 => ⟨hsim, h1, h2⟩
  | cons f rest ih =>
      intro s1 s2 hsim h1 h2
      simp only [walkFiles, List.foldl_cons] at *
      obtain ⟨hsim', h1', h2'⟩ := walkFile_sim p k1 k2 f s1 s2 hsim h1 h2
      exact ih _ _ hsim' h1' h2'

theorem dropKey_pk (p : Parser) (k : Int) (st : ParserState) (s : String) :
    dropKey { p with minOccurrences := k } st s
      = (if (((alookup st.stringCount s).getD 0 : Nat) : Int) < k then true
         else if regexMatches p.ignoreStringsRegex s then true
         else numberFilterDrop p s) := rfl

theorem processResults_strs_lookup (p : Parser) (st : ParserState) (s : String) :
    alookup (ProcessResults p st).strs s
      = if dropKey p st s then none else alookup st.strs s := by
  unfold ProcessResults
  dsimp only
  rw [alookup_filter_key st.strs (fun x => ! dropKey p st x) s]
  by_cases hd : dropKey p st s <;> simp [hd]

theorem processResults_count_lookup (p : Parser) (st : ParserState) (s : String) :
    alookup (ProcessResults p st).stringCount s
      = if (alookup st.strs s).isSome && dropKey p st s then none
        else alookup st.stringCount s := by
  unfold ProcessResults
  dsimp only
  rw [alookup_filter_key st.stringCount
    (fun x => ! ((alookup st.strs x).isSome && dropKey p st x)) s]
  by_cases hd : ((alookup st.strs s).isSome && dropKey p st s) = true <;> simp [hd]

theorem processResults_consts (p : Parser) (st : ParserState) :
    (ProcessResults p st).consts = st.consts := rfl

theorem mem_issuesFromState (p : Parser) (st : ParserState) (order : List String)
    (i : Issue) :
    i ∈ issuesFromState p st order
      ↔ ∃ s, s ∈ order
          ∧ p.minOccurrences ≤ (((alookup st.stringCount s).getD 0 : Nat) : Int)
          ∧ issueOf st s = some i := by
  unfold issuesFromState stringKeysOf
  rw [List.mem_filterMap]
  constructor
  · rintro ⟨s, hs, hio⟩
    rw [List.mem_filter] at hs
    exact ⟨s, hs.1, by simpa using hs.2, hio⟩
  · rintro ⟨s, hs1, hs2, hio⟩
    exact ⟨s, List.mem_filter.mpr ⟨hs1, by simpa using hs2⟩, hio⟩

theorem issues_mono_of_sim (p : Parser) (k1 k2 : Int) (hk : k1 ≤ k2)
    (W1 W2 : ParserState)
    (hsc : W1.stringCount = W2.stringCount) (hco : W1.consts = W2.consts)
    (hkeys : akeys W1.strs = akeys W2.strs)
    (hhead : ∀ w, ((alookup W1.strs w).getD []).head? = ((alookup W2.strs w).getD []).head?)
    (hwf1 : StateWF W1) (hwf2 : StateWF W2) (i : Issue)
    (hi : i ∈ issuesFromState { p with minOccurrences := k2 }
        (ProcessResults { p with minOccurrences := k2 } W2)
        (akeys (ProcessResults { p with minOccurrences := k2 } W2).strs)) :
    i ∈ issuesFromState { p with minOccurrences := k1 }
        (ProcessResults { p with minOccurrences := k1 } W1)
        (akeys (ProcessResults { p with minOccurrences := k1 } W1).strs) := by
  rw [mem_issuesFromState] at hi ⊢
  obtain ⟨s, hmem, hth, hio⟩ := hi
  have hsome2' : (alookup (ProcessResults { p with minOccurrences := k2 } W2).strs s).isSome :=
    (alookup_isSome_iff_mem _ _).mpr hmem
  rw [processResults_strs_lookup] at hsome2'
  have hd2 : dropKey { p with minOccurrences := k2 } W2 s = false := by
    by_contra hcontra
    rw [Bool.not_eq_false] at hcontra
    rw [if_pos hcontra] at hsome2'
    simp at hsome2'
  rw [if_neg (by simp [hd2])] at hsome2'
  have hd2c := hd2
  rw [dropKey_pk] at hd2c
  have hc2 : ¬ (((alookup W2.stringCount s).getD 0 : Nat) : Int) < k2 := by
    intro hlt
    rw [if_pos hlt] at hd2c
    exact absurd hd2c (by simp)
  rw [if_neg hc2] at hd2c
  have hre : ¬ regexMatches p.ignoreStringsRegex s = true := by
    intro hr
    rw [if_pos hr] at hd2c
    exact absurd hd2c (by simp)
  rw [if_neg hre] at hd2c
  have hd1 : dropKey { p with minOccurrences := k1 } W1 s = false := by
    rw [dropKey_pk, hsc]
    rw [if_neg (show ¬ (((alookup W2.stringCount s).getD 0 : Nat) : Int) < k1 by omega)]
    rw [if_neg hre]
    exact hd2c
  have hbase1 : (alookup W1.strs s).isSome := by
    rw [alookup_isSome_iff_mem, hkeys, ← alookup_isSome_iff_mem]
    exact hsome2'
  obtain ⟨l1, hl1⟩ := Option.isSome_iff_exists.mp hbase1
  obtain ⟨l2, hl2⟩ := Option.isSome_iff_exists.mp hsome2'
  have hl1ne : l1 ≠ [] := (hwf1 s).2 l1 hl1
  have hl2ne : l2 ≠ [] := (hwf2 s).2 l2 hl2
  have hh := hhead s
  rw [hl1, hl2] at hh
  simp only [Option.getD_some] at hh
  have hstrs1 : alookup (ProcessResults { p with minOccurrences := k1 } W1).strs s
      = some l1 := by
    rw [processResults_strs_lookup, if_neg (by simp [hd1])]
    exact hl1
  have hstrs2 : alookup (ProcessResults { p with minOccurrences := k2 } W2).strs s
      = some l2 := by
    rw [processResults_strs_lookup, if_neg (by simp [hd2])]
    exact hl2
  have hcnt1 : alookup (ProcessResults { p with minOccurrences := k1 } W1).stringCount s
      = alookup W1.stringCount s := by
    rw [processResults_count_lookup, if_neg (by simp [hd1])]
  have hcnt2 : alookup (ProcessResults { p with minOccurrences := k2 } W2).stringCount s
      = alookup W2.stringCount s := by
    rw [processResults_count_lookup, if_neg (by simp [hd2])]
  have hioeq : issueOf (ProcessResults { p with minOccurrences := k1 } W1) s
      = issueOf (ProcessResults { p with minOccurrences := k2 } W2) s := by
    cases l1 with
    | nil => exact absurd rfl hl1ne
    | cons a t1 =>
        cases l2 with
        | nil => exact absurd rfl hl2ne
        | cons b t2 =>
            simp only [List.head?, Option.some.injEq] at hh
            subst hh
            unfold issueOf
            rw [hstrs1, hstrs2]
            simp only [Option.getD_some]
            rw [hcnt1, hcnt2, hsc, processResults_consts, processResults_consts, hco]
  refine ⟨s, ?_, ?_, hioeq.trans hio⟩
  · apply (alookup_isSome_iff_mem _ _).mp
    rw [hstrs1]
    rfl
  · rw [hcnt1, hsc]
    rw [hcnt2] at hth
    have hth' : k2 ≤ (((alookup W2.stringCount s).getD 0 : Nat) : Int) := hth
    show k1 ≤ _
    omega

/-- C7: monotonicity in the minimum-occurrence threshold.  For two
configurations differing only in minOccurrences with k1 ≤ k2, every
issue Run emits at threshold k2 is also emitted at threshold k1: counts,
constants, string-map keys and first occurrences do not depend on the
threshold, which only gates the survival test. -/
theorem C7_minOccurrences_monotone (p : Parser) (files : List GoFile) (k1 k2 : Int)
    (hk : k1 ≤ k2) (i : Issue)
    (hi : i ∈ Run { p with minOccurrences := k2 } files) :
    i ∈ Run { p with minOccurrences := k1 } files := by
  obtain ⟨⟨hsc, hco, hkeys, hhead⟩, hwf1, hwf2⟩ :=
    walkFiles_sim p k1 k2
      (files.filter (fun f => ! (p.ignoreTests && goHasSuffix f.name "_test.go")))
      emptyState emptyState simRel_empty stateWF_empty stateWF_empty
  exact issues_mono_of_sim p k1 k2 hk _ _ hsc hco hkeys hhead hwf1 hwf2 i hi

/-- Witness for C7: the issue emitted at threshold 2 for two
occurrences of "test" is also emitted at threshold 1. -/
theorem C7_minOccurrences_monotone_witness :
    (⟨⟨"a.go", 1, 6⟩, 3, "test", ""⟩ : Issue)
      ∈ Run { minLength := 3, minOccurrences := 1 } [exFileTestThree] :=
  C7_minOccurrences_monotone { minLength := 3 } [exFileTestThree] 1 2 (by decide)
    ⟨⟨"a.go", 1, 6⟩, 3, "test", ""⟩ (by decide)
